import Mathlib

/-!
Shallow embedding of the analog-ranking core of `main.py`
(`get_analog` and its helper steps), together with theorems checking the
design document's claims about it.

Modelling conventions:
* years are `ℤ` (Python ints), observations are `ℚ` (real-valued data);
* a signal series (`oni_values`, `pdo_values`) is a partial map
  `ℤ → Option (List ℚ)`: a missing year is `none`, mirroring a `KeyError`;
* fallible computations return `Option`, with `none` for a propagated
  lookup failure;
* Python's `sorted(..., key=f)` (a stable sort) is modelled by the stable
  insertion sort `sortByKey`;
* Python dicts keyed by candidate year, filled in ascending year order,
  are modelled by association lists in that same order.
-/

namespace Snowfall

/-- `intRange a b` models Python's `range(a, b)` over integers:
the list `[a, a+1, ..., b-1]`, empty when `b ≤ a`. -/
def intRange (a b : ℤ) : List ℤ :=
  (List.range (b - a).toNat).map (fun i : ℕ => a + (i : ℤ))

/-- Concatenation of a list of observation sequences, modelling
`chain.from_iterable`. -/
def flatten_all : List (List ℚ) → List ℚ
  | [] => []
  | v :: vs => v ++ flatten_all vs

/-- Look up every year of a list in a signal series, failing (like the
list comprehension `[values[y] for y in ...]` raising `KeyError`) if any
year is absent. -/
def lookup_years (store : ℤ → Option (List ℚ)) : List ℤ → Option (List (List ℚ))
  | [] => some []
  | y :: ys =>
    match store y, lookup_years store ys with
    | some v, some vs => some (v :: vs)
    | _, _ => none

/-- The ONI comparison progression built by `get_analog` (lines 48-56 and
60-67 of `main.py`): the year's own sequence when `look_back = 0`,
otherwise the concatenation of the sequences of
`range(y - look_back, y + 1)`. -/
def oni_progression (oni : ℤ → Option (List ℚ)) (y : ℤ) (look_back : ℕ) :
    Option (List ℚ) :=
  if look_back = 0 then oni y
  else (lookup_years oni (intRange (y - look_back) (y + 1))).map flatten_all

/-- The PDO comparison progression built by `get_analog` (lines 57 and 68
of `main.py`): always the year's own sequence, `look_back` is not used. -/
def pdo_progression (pdo : ℤ → Option (List ℚ)) (y : ℤ) : Option (List ℚ) :=
  pdo y

/-- The start of the candidate pool after the `start_year += look_back`
adjustment on line 51 of `main.py` (performed only when `look_back ≠ 0`). -/
def effective_start (start_year : ℤ) (look_back : ℕ) : ℤ :=
  if look_back = 0 then start_year else start_year + look_back

/-- The candidate pool `range(start_year, year)` iterated on lines 59 and
87 of `main.py`, with `start_year` already adjusted by the look-back. -/
def candidate_pool (start_year : ℤ) (look_back : ℕ) (year : ℤ) : List ℤ :=
  intRange (effective_start start_year look_back) year

/-- The distance vector of lines 70-80 of `main.py`: the candidate
progression is truncated to the target progression's length, then zipped
with the target, and each aligned pair contributes
`|candidate - target| ** raise_to`. -/
def distance_vector (cand targ : List ℚ) (raise_to : ℕ) : List ℚ :=
  ((cand.take targ.length).zip targ).map (fun p => |p.1 - p.2| ^ raise_to)

/-- The per-candidate loop of lines 59-80 of `main.py`: for each pool year
build both progressions (failing on a missing year) and record both
distance vectors, in pool order. -/
def build_analogs (oni pdo : ℤ → Option (List ℚ)) (look_back : ℕ)
    (currentOni currentPdo : List ℚ) (raise_to : ℕ) :
    List ℤ → Option (List (ℤ × List ℚ) × List (ℤ × List ℚ))
  | [] => some ([], [])
  | y :: ys =>
    match oni_progression oni y look_back, pdo_progression pdo y with
    | some po, some pp =>
      match build_analogs oni pdo look_back currentOni currentPdo raise_to ys with
      | some (oA, pA) =>
        some ((y, distance_vector po currentOni raise_to) :: oA,
              (y, distance_vector pp currentPdo raise_to) :: pA)
      | none => none
    | _, _ => none

/-- Stable insertion keeping `a` after every element whose key is
strictly smaller, so that ties keep input order. -/
def insertByKey {α : Type} (key : α → ℚ) (a : α) : List α → List α
  | [] => [a]
  | b :: bs => if key b < key a then b :: insertByKey key a bs else a :: b :: bs

/-- Stable sort by a `ℚ`-valued key, modelling Python's
`sorted(..., key=f)` (ascending, ties broken by input order). -/
def sortByKey {α : Type} (key : α → ℚ) : List α → List α
  | [] => []
  | a :: l => insertByKey key a (sortByKey key l)

/-- The sort key of lines 82-83 of `main.py`: the sum of a stored
distance vector. -/
def total_of (p : ℤ × List ℚ) : ℚ := p.2.sum

/-- The 1-based rank of lines 88-89 of `main.py`:
`list(analogs.keys()).index(year) + 1` on a sorted association list. -/
def rank_in (sorted : List (ℤ × List ℚ)) (y : ℤ) : ℕ :=
  (sorted.map Prod.fst).indexOf y + 1

/-- The rank fusion of lines 82-91 of `main.py`: sort each signal's
association list by total distance (stable), then map each pool year to
the arithmetic mean of its two 1-based ranks. -/
def rank_fuse (oniAnalogs pdoAnalogs : List (ℤ × List ℚ)) (pool : List ℤ) :
    List (ℤ × ℚ) :=
  pool.map (fun ay =>
    (ay, ((rank_in (sortByKey total_of oniAnalogs) ay : ℚ) +
          (rank_in (sortByKey total_of pdoAnalogs) ay : ℚ)) / 2))

/-- The full `get_analog` of `main.py` lines 27-95, with the two signal
series passed explicitly instead of loaded from disk. -/
def get_analog (oni pdo : ℤ → Option (List ℚ)) (year : ℤ) (look_back : ℕ)
    (start_year : ℤ) (raise_to : ℕ) (years_to_return : ℕ) : Option (List ℤ) :=
  match oni_progression oni year look_back with
  | none => none
  | some currentOni =>
    match pdo_progression pdo year with
    | none => none
    | some currentPdo =>
      match build_analogs oni pdo look_back currentOni currentPdo raise_to
          (candidate_pool start_year look_back year) with
      | none => none
      | some (oniAnalogs, pdoAnalogs) =>
        some (((sortByKey Prod.snd
            (rank_fuse oniAnalogs pdoAnalogs
              (candidate_pool start_year look_back year))).map Prod.fst).take
          years_to_return)

/-- The design document's reading of the Progression Extractor, written
from its words alone: for look-back `L`, the concatenation, in ascending
year order, of the observation sequences for the years `[y - L, y]`
inclusive, failing if any of them is absent. Stated independently of the
code so that the code's progression builders can be compared against it. -/
def window_progression_spec (store : ℤ → Option (List ℚ)) (y : ℤ) :
    ℕ → Option (List ℚ)
  | 0 => store y
  | L + 1 =>
    match store (y - ((L : ℤ) + 1)), window_progression_spec store y L with
    | some v, some rest => some (v ++ rest)
    | _, _ => none

/-- A per-signal association list realising the design document's
deliberate tie scenario: distance order 1, 2, 3 with the first two totals
tied. -/
def tieA : List (ℤ × List ℚ) := [(1, []), (2, []), (3, [2])]

/-- The other signal's association list for the tie scenario: distance
order 3, 2, 1. -/
def tieB : List (ℤ × List ℚ) := [(1, [3]), (2, [2]), (3, [])]

/-- The tied prefix of `tieA`: two entries with equal totals, in input
order. -/
def tieCA : List (ℤ × List ℚ) := [(1, []), (2, [])]

/-- A single entry of `tieB`, trivially tied with itself. -/
def tieCB : List (ℤ × List ℚ) := [(3, [])]

/-- A small concrete ONI series (years 2000-2002) used to evaluate the
development on closed inputs. -/
def oniDemo : ℤ → Option (List ℚ) := fun y =>
  if y = 2000 then some [1, 2] else
  if y = 2001 then some [3, 4] else
  if y = 2002 then some [5, 6] else none

/-- A small concrete PDO series missing the year 2000: 2000 lies in the
look-back window of candidate 2001 but is absent from this series. -/
def pdoDemo : ℤ → Option (List ℚ) := fun y =>
  if y = 2001 then some [7, 8] else
  if y = 2002 then some [9, 10] else none

/-- A concrete ONI series covering 1999-2002 with no gaps. -/
def oniFull : ℤ → Option (List ℚ) := fun y =>
  if y = 1999 then some [0, 1] else
  if y = 2000 then some [1, 2] else
  if y = 2001 then some [3, 4] else
  if y = 2002 then some [5, 6] else none

/-- A concrete PDO series covering 1999-2002 with no gaps. -/
def pdoFull : ℤ → Option (List ℚ) := fun y =>
  if y = 1999 then some [4, 4] else
  if y = 2000 then some [2, 1] else
  if y = 2001 then some [8, 9] else
  if y = 2002 then some [9, 10] else none

/-- `oniFull` re-expressed through a shifted argument: pointwise equal to
`oniFull` but not syntactically identical. -/
def oniFull' : ℤ → Option (List ℚ) := fun y => oniFull (y + 0)

/-- `pdoFull` re-expressed through a shifted argument: pointwise equal to
`pdoFull` but not syntactically identical. -/
def pdoFull' : ℤ → Option (List ℚ) := fun y => pdoFull (y + 0)

/-! ### Basic lemmas about `intRange` -/

theorem mem_intRange {a b y : ℤ} : y ∈ intRange a b ↔ a ≤ y ∧ y < b := by
  rw [intRange, List.mem_map]
  constructor
  · rintro ⟨i, hi, rfl⟩
    rw [List.mem_range] at hi
    omega
  · rintro ⟨h₁, h₂⟩
    refine ⟨(y - a).toNat, List.mem_range.2 (by omega), by omega⟩

theorem intRange_eq_nil {a b : ℤ} (h : b ≤ a) : intRange a b = [] := by
  rw [intRange, List.map_eq_nil_iff, List.range_eq_nil]
  omega

theorem intRange_cons {a b : ℤ} (h : a < b) :
    intRange a b = a :: intRange (a + 1) b := by
  have hn : (b - a).toNat = (b - (a + 1)).toNat + 1 := by omega
  rw [intRange, hn, List.range_succ_eq_map, List.map_cons, List.map_map, intRange]
  rw [List.cons.injEq]
  refine ⟨by omega, ?_⟩
  apply List.map_congr_left
  intro i _
  simp only [Function.comp_apply]
  omega

theorem intRange_length {a b : ℤ} : (intRange a b).length = (b - a).toNat := by
  rw [intRange, List.length_map, List.length_range]

/-! ### The stable insertion sort: permutation, sortedness, stability -/

theorem insertByKey_perm {α : Type} (key : α → ℚ) (a : α) (l : List α) :
    List.Perm (insertByKey key a l) (a :: l) := by
  induction l with
  | nil => simp [insertByKey]
  | cons b bs ih =>
    simp only [insertByKey]
    split
    · exact (ih.cons b).trans (List.Perm.swap a b bs)
    · exact List.Perm.refl _

theorem sortByKey_perm {α : Type} (key : α → ℚ) (l : List α) :
    List.Perm (sortByKey key l) l := by
  induction l with
  | nil => exact List.Perm.refl _
  | cons a l ih =>
    exact (insertByKey_perm key a (sortByKey key l)).trans (ih.cons a)

theorem sortByKey_length {α : Type} (key : α → ℚ) (l : List α) :
    (sortByKey key l).length = l.length :=
  (sortByKey_perm key l).length_eq

theorem insertByKey_sorted {α : Type} {key : α → ℚ} {l : List α} (a : α)
    (h : l.Pairwise (fun x y => key x ≤ key y)) :
    (insertByKey key a l).Pairwise (fun x y => key x ≤ key y) := by
  induction l with
  | nil => simp [insertByKey]
  | cons b bs ih =>
    rw [List.pairwise_cons] at h
    simp only [insertByKey]
    split
    · rename_i hba
      rw [List.pairwise_cons]
      refine ⟨?_, ih h.2⟩
      intro x hx
      rcases List.mem_cons.1 ((insertByKey_perm key a bs).mem_iff.1 hx) with rfl | hxb
      · exact le_of_lt hba
      · exact h.1 x hxb
    · rename_i hba
      rw [List.pairwise_cons]
      refine ⟨?_, List.pairwise_cons.2 h⟩
      intro x hx
      rcases List.mem_cons.1 hx with hxb | hxbs
      · subst hxb; exact le_of_not_lt hba
      · exact le_trans (le_of_not_lt hba) (h.1 x hxbs)

theorem sortByKey_sorted {α : Type} (key : α → ℚ) (l : List α) :
    (sortByKey key l).Pairwise (fun x y => key x ≤ key y) := by
  induction l with
  | nil => simp [sortByKey]
  | cons a l ih => exact insertByKey_sorted a ih

theorem sublist_insertByKey {α : Type} (key : α → ℚ) (a : α) (l : List α) :
    l.Sublist (insertByKey key a l) := by
  induction l with
  | nil => simp [insertByKey]
  | cons b bs ih =>
    simp only [insertByKey]
    split
    · exact ih.cons₂ b
    · exact (List.Sublist.refl (b :: bs)).cons a

theorem cons_sublist_insertByKey {α : Type} {key : α → ℚ} {a : α} {c m : List α}
    (hties : ∀ x ∈ c, key a = key x) (hsub : c.Sublist m) :
    (a :: c).Sublist (insertByKey key a m) := by
  induction m generalizing c with
  | nil =>
    rw [List.sublist_nil] at hsub
    subst hsub
    simp [insertByKey]
  | cons b bs ih =>
    simp only [insertByKey]
    split
    · rename_i hba
      cases hsub with
      | cons _ h =>
        exact (ih hties h).cons b
      | cons₂ _ h =>
        exact absurd (hties b (List.mem_cons_self b _)) (by intro he; rw [he] at hba; exact lt_irrefl _ hba)
    · exact hsub.cons₂ a

theorem sublist_sortByKey {α : Type} {key : α → ℚ} {c l : List α}
    (hties : c.Pairwise (fun x y => key x = key y)) (hsub : c.Sublist l) :
    c.Sublist (sortByKey key l) := by
  induction l generalizing c with
  | nil =>
    rw [List.sublist_nil] at hsub
    subst hsub
    exact List.nil_sublist _
  | cons a l ih =>
    simp only [sortByKey]
    cases hsub with
    | cons _ h =>
      exact (ih hties h).trans (sublist_insertByKey key a _)
    | cons₂ _ h =>
      rw [List.pairwise_cons] at hties
      exact cons_sublist_insertByKey hties.1 (ih hties.2 h)

/-! ### The ONI progression builder agrees with the spec's window
concatenation -/

theorem lookup_window_eq (store : ℤ → Option (List ℚ)) (y : ℤ) : ∀ L : ℕ,
    (lookup_years store (intRange (y - (L : ℤ)) (y + 1))).map flatten_all =
      window_progression_spec store y L
  | 0 => by
    rw [show y - ((0 : ℕ) : ℤ) = y by omega]
    rw [intRange_cons (by omega), intRange_eq_nil (by omega)]
    rw [window_progression_spec]
    cases hv : store y with
    | none => simp [lookup_years, hv]
    | some v => simp [lookup_years, hv, flatten_all]
  | (L + 1) => by
    have hcons : intRange (y - ((L + 1 : ℕ) : ℤ)) (y + 1) =
        (y - ((L : ℤ) + 1)) :: intRange (y - (L : ℤ)) (y + 1) := by
      rw [intRange_cons (by push_cast; omega)]
      rw [show y - ((L + 1 : ℕ) : ℤ) = y - ((L : ℤ) + 1) by push_cast; omega]
      rw [show y - ((L : ℤ) + 1) + 1 = y - (L : ℤ) by omega]
    rw [hcons, window_progression_spec]
    cases hv : store (y - ((L : ℤ) + 1)) with
    | none => simp [lookup_years, hv]
    | some v =>
      have ih := lookup_window_eq store y L
      cases hl : lookup_years store (intRange (y - (L : ℤ)) (y + 1)) with
      | none =>
        rw [hl] at ih
        simp [lookup_years, hv, hl, ← ih]
      | some vs =>
        rw [hl] at ih
        simp [lookup_years, hv, hl, ← ih, flatten_all]

/-! ### Failure propagation through the candidate loop -/

theorem build_analogs_eq_none (oni pdo : ℤ → Option (List ℚ))
    (look_back : ℕ) (co cp : List ℚ) (e : ℕ) (pool : List ℤ) (c : ℤ)
    (hc : c ∈ pool)
    (hfail : oni_progression oni c look_back = none ∨ pdo c = none) :
    build_analogs oni pdo look_back co cp e pool = none := by
  induction pool with
  | nil => cases hc
  | cons y ys ih =>
    rcases List.mem_cons.1 hc with rfl | hmem
    · rcases hfail with h | h
      · simp [build_analogs, h]
      · cases ho : oni_progression oni c look_back <;>
          simp [build_analogs, ho, pdo_progression, h]
    · cases ho : oni_progression oni y look_back with
      | none => simp [build_analogs, ho]
      | some po =>
        cases hp : pdo_progression pdo y with
        | none => simp [build_analogs, ho, hp]
        | some pp => simp [build_analogs, ho, hp, ih hmem]

theorem length_distance_vector (cand targ : List ℚ) (e : ℕ) :
    (distance_vector cand targ e).length = min cand.length targ.length := by
  rw [distance_vector, List.length_map, List.length_zip, List.length_take]
  omega

/-! ### Claim theorems -/

/-- C1 counterexample: the PDO comparison progression that `get_analog`
builds (always the year's own sequence) differs, at a concrete series
with look-back 1, from the concatenation of the PDO sequences of the
years in the look-back window, so the claim that both signals' Progressions
are built as look-back concatenations fails on the code. -/
theorem pdo_progression_ignores_lookback_cx :
    pdo_progression pdoDemo 2002 = some [9, 10] ∧
    window_progression_spec pdoDemo 2002 1 = some [7, 8, 9, 10] ∧
    pdo_progression pdoDemo 2002 ≠ window_progression_spec pdoDemo 2002 1 := by
  refine ⟨rfl, rfl, ?_⟩
  decide

/-- C1 (amended): for look-back `L > 0`, the ONI comparison progression
`get_analog` builds (for the target year and every candidate alike) is the
concatenation, in ascending year order, of the ONI observation sequences
for the years `[y - L, y]` inclusive; the PDO comparison progression,
however, is always just the year's own PDO sequence, with the look-back
ignored. -/
theorem progression_extraction_per_signal (store pstore : ℤ → Option (List ℚ))
    (y z : ℤ) (L : ℕ) (h : L ≠ 0) :
    oni_progression store y L = window_progression_spec store y L ∧
    pdo_progression pstore z = pstore z := by
  refine ⟨?_, rfl⟩
  rw [oni_progression, if_neg h]
  exact lookup_window_eq store y L

/-- C1 witness: the amended statement evaluated on the concrete demo
series with look-back 1. -/
theorem progression_extraction_per_signal_witness :
    oni_progression oniDemo 2002 1 = window_progression_spec oniDemo 2002 1 ∧
    pdo_progression pdoDemo 2002 = pdoDemo 2002 :=
  progression_extraction_per_signal oniDemo pdoDemo 2002 2002 1 (by decide)

/-- C2 counterexample: with the candidate pool `[2005, 2001)` empty
(target 2001 ≤ effective start 2005), `get_analog` returns the normal
result `some []` instead of signalling an error. -/
theorem empty_pool_no_error_cx :
    get_analog oniDemo pdoDemo 2001 0 2005 1 5 = some [] ∧
    get_analog oniDemo pdoDemo 2001 0 2005 1 5 ≠ none := by
  exact ⟨rfl, by decide⟩

/-- C2 (amended): whenever the target year is at most the effective start
of the candidate pool, and the target year's own progressions resolve,
`get_analog` returns the empty list as a normal result; no Invalid-Range
error is signalled. -/
theorem empty_pool_returns_nil (oni pdo : ℤ → Option (List ℚ)) (year : ℤ)
    (look_back : ℕ) (start_year : ℤ) (raise_to years_to_return : ℕ)
    (hle : year ≤ effective_start start_year look_back)
    (po : List ℚ) (ho : oni_progression oni year look_back = some po)
    (pp : List ℚ) (hp : pdo_progression pdo year = some pp) :
    get_analog oni pdo year look_back start_year raise_to years_to_return =
      some [] := by
  rw [get_analog, ho, hp, candidate_pool, intRange_eq_nil hle]
  simp [build_analogs, rank_fuse, sortByKey, List.take_nil]

/-- C2 witness: an empty-pool call on the concrete demo series. -/
theorem empty_pool_returns_nil_witness :
    get_analog oniDemo pdoDemo 2001 0 2010 1 3 = some [] :=
  empty_pool_returns_nil oniDemo pdoDemo 2001 0 2010 1 3 (by decide)
    [3, 4] rfl [7, 8] rfl

/-- C5: for look-back `L > 0`, the candidate pool's effective floor is the
nominal `start_year` plus `L`, and the pool is exactly the years from that
floor up to `year - 1` inclusive. -/
theorem effective_pool_floor (start_year : ℤ) (look_back : ℕ) (year : ℤ)
    (h : look_back ≠ 0) :
    effective_start start_year look_back = start_year + look_back ∧
    ∀ y : ℤ, y ∈ candidate_pool start_year look_back year ↔
      start_year + look_back ≤ y ∧ y ≤ year - 1 := by
  have he : effective_start start_year look_back = start_year + look_back := by
    rw [effective_start, if_neg h]
  refine ⟨he, fun y => ?_⟩
  rw [candidate_pool, he, mem_intRange]
  omega

/-- C5 witness: with `look_back = 2` and `start_year = 1964` the effective
floor is 1966, and 1964 is in the pool for target 2023 only if
`1966 ≤ 1964` -- i.e. it is excluded. -/
theorem effective_pool_floor_witness :
    effective_start 1964 2 = 1964 + (2 : ℕ) ∧
    ((1964 : ℤ) ∈ candidate_pool 1964 2 2023 ↔
      1964 + ((2 : ℕ) : ℤ) ≤ 1964 ∧ (1964 : ℤ) ≤ 2023 - 1) :=
  ⟨(effective_pool_floor 1964 2 2023 (by decide)).1,
   (effective_pool_floor 1964 2 2023 (by decide)).2 1964⟩

/-- C9: `get_analog` is deterministic: two calls with identical arguments
against signal stores with identical contents produce identical output. -/
theorem get_analog_deterministic (oni oni' pdo pdo' : ℤ → Option (List ℚ))
    (year : ℤ) (look_back : ℕ) (start_year : ℤ)
    (raise_to years_to_return : ℕ)
    (ho : ∀ y, oni y = oni' y) (hp : ∀ y, pdo y = pdo' y) :
    get_analog oni pdo year look_back start_year raise_to years_to_return =
    get_analog oni' pdo' year look_back start_year raise_to years_to_return := by
  have h₁ : oni = oni' := funext ho
  have h₂ : pdo = pdo' := funext hp
  rw [h₁, h₂]

/-- C9 witness: two syntactically different but pointwise equal stores
give the same analog list. -/
theorem get_analog_deterministic_witness :
    get_analog oniFull pdoFull 2002 1 2000 1 5 =
    get_analog oniFull' pdoFull' 2002 1 2000 1 5 :=
  get_analog_deterministic oniFull oniFull' pdoFull pdoFull' 2002 1 2000 1 5
    (fun y => congrArg oniFull (by omega))
    (fun y => congrArg pdoFull (by omega))

/-- C10: the distance vector has length `min (candidate length) (target
length)`; in particular a shorter candidate silently shortens the pairing
to its own length, and a vector is produced for every pair of
progressions. -/
theorem distance_vector_min_length (cand targ : List ℚ) (e : ℕ) :
    (distance_vector cand targ e).length = min cand.length targ.length := by
  rw [distance_vector, List.length_map, List.length_zip, List.length_take]
  omega

/-- C3: the Rank Fuser's two sorts are each a stable ascending sort of the
input association list by total distance (permutation of the input, sorted
by total, any run of tied entries keeps its input order), and each pool
year is mapped to the arithmetic mean of its two 1-based ranks in those
sorted orders. -/
theorem rank_fusion_spec (A B : List (ℤ × List ℚ)) (pool : List ℤ) (y : ℤ)
    (hy : y ∈ pool)
    (cA cB : List (ℤ × List ℚ))
    (hcA : cA.Pairwise (fun p q => total_of p = total_of q))
    (hsA : cA.Sublist A)
    (hcB : cB.Pairwise (fun p q => total_of p = total_of q))
    (hsB : cB.Sublist B) :
    List.Perm (sortByKey total_of A) A ∧
    (sortByKey total_of A).Pairwise (fun p q => total_of p ≤ total_of q) ∧
    cA.Sublist (sortByKey total_of A) ∧
    List.Perm (sortByKey total_of B) B ∧
    (sortByKey total_of B).Pairwise (fun p q => total_of p ≤ total_of q) ∧
    cB.Sublist (sortByKey total_of B) ∧
    (y, ((rank_in (sortByKey total_of A) y : ℚ) +
         (rank_in (sortByKey total_of B) y : ℚ)) / 2) ∈ rank_fuse A B pool := by
  refine ⟨sortByKey_perm _ _, sortByKey_sorted _ _, sublist_sortByKey hcA hsA,
    sortByKey_perm _ _, sortByKey_sorted _ _, sublist_sortByKey hcB hsB, ?_⟩
  rw [rank_fuse]
  exact List.mem_map_of_mem _ hy

/-- C3 witness: the design document's deliberate tie scenario, where one
signal orders the years 1, 2, 3 (first two tied) and the other orders
them 3, 2, 1. -/
theorem rank_fusion_spec_witness :
    List.Perm (sortByKey total_of tieA) tieA ∧
    (sortByKey total_of tieA).Pairwise (fun p q => total_of p ≤ total_of q) ∧
    tieCA.Sublist (sortByKey total_of tieA) ∧
    List.Perm (sortByKey total_of tieB) tieB ∧
    (sortByKey total_of tieB).Pairwise (fun p q => total_of p ≤ total_of q) ∧
    tieCB.Sublist (sortByKey total_of tieB) ∧
    ((1 : ℤ), ((rank_in (sortByKey total_of tieA) 1 : ℚ) +
         (rank_in (sortByKey total_of tieB) 1 : ℚ)) / 2) ∈
      rank_fuse tieA tieB [1, 2, 3] :=
  rank_fusion_spec tieA tieB [1, 2, 3] 1 (by decide) tieCA tieCB
    (by decide) (by decide) (by decide) (by decide)

/-- C4: element `i` of the distance vector is the absolute difference of
the aligned pair of observations raised to the exponent (the candidate
having first been truncated to the target's length), and the total
distance used as the ranking sort key is the sum of the vector's
elements. -/
theorem distance_vector_formula (cand targ : List ℚ) (e : ℕ) (yr : ℤ) (i : ℕ)
    (h : i < (distance_vector cand targ e).length) :
    (distance_vector cand targ e).getD i 0 =
      |cand.getD i 0 - targ.getD i 0| ^ e ∧
    total_of (yr, distance_vector cand targ e) =
      (distance_vector cand targ e).sum := by
  refine ⟨?_, rfl⟩
  have hlen := length_distance_vector cand targ e
  have hc : i < cand.length := by omega
  have ht : i < targ.length := by omega
  rw [List.getD_eq_getElem _ _ h, List.getD_eq_getElem _ _ hc,
    List.getD_eq_getElem _ _ ht]
  simp [distance_vector, List.getElem_take]

/-- C4 witness: a candidate of length 5 against a target of length 3 with
exponent 2, checked at index 1. -/
theorem distance_vector_formula_witness :
    (distance_vector [1, 2, 3, 4, 5] [10, 20, 30] 2).getD 1 0 =
      |([1, 2, 3, 4, 5] : List ℚ).getD 1 0 -
        ([10, 20, 30] : List ℚ).getD 1 0| ^ 2 ∧
    total_of (0, distance_vector [1, 2, 3, 4, 5] [10, 20, 30] 2) =
      (distance_vector [1, 2, 3, 4, 5] [10, 20, 30] 2).sum :=
  distance_vector_formula [1, 2, 3, 4, 5] [10, 20, 30] 2 0 1 (by decide)

/-- C6: whenever `get_analog` returns a list, its length is exactly
`min years_to_return pool_size`: fewer than the requested count only when
the candidate pool itself is smaller, and never padded. -/
theorem result_length_min (oni pdo : ℤ → Option (List ℚ)) (year : ℤ)
    (look_back : ℕ) (start_year : ℤ) (raise_to years_to_return : ℕ)
    (res : List ℤ)
    (h : get_analog oni pdo year look_back start_year raise_to years_to_return =
      some res) :
    res.length =
      min years_to_return (candidate_pool start_year look_back year).length := by
  rw [get_analog] at h
  split at h
  · exact Option.noConfusion h
  · split at h
    · exact Option.noConfusion h
    · split at h
      · exact Option.noConfusion h
      · rw [Option.some.injEq] at h
        subst h
        rw [List.length_take, List.length_map, sortByKey_length, rank_fuse,
          List.length_map]

/-- C6 witness: a pool of one candidate with five requested years returns
exactly one year. -/
theorem result_length_min_witness :
    ([2001] : List ℤ).length = min 5 (candidate_pool 2000 1 2002).length :=
  result_length_min oniDemo pdoDemo 2002 1 2000 1 5 [2001] (by decide)

/-- C7: with `look_back = 0`, every year in a returned analog list lies in
`[start_year, year - 1]`: the target year itself, and any later year,
never appears. -/
theorem no_future_candidates (oni pdo : ℤ → Option (List ℚ))
    (year start_year : ℤ) (raise_to years_to_return : ℕ) (res : List ℤ)
    (h : get_analog oni pdo year 0 start_year raise_to years_to_return =
      some res)
    (y : ℤ) (hy : y ∈ res) :
    start_year ≤ y ∧ y < year := by
  rw [get_analog] at h
  split at h
  · exact Option.noConfusion h
  · split at h
    · exact Option.noConfusion h
    · split at h
      · exact Option.noConfusion h
      · rename_i oA pA heq
        rw [Option.some.injEq] at h
        subst h
        have hy1 := List.mem_of_mem_take hy
        rcases List.mem_map.1 hy1 with ⟨p, hp, rfl⟩
        have hp2 : p ∈ rank_fuse oA pA (candidate_pool start_year 0 year) :=
          ((sortByKey_perm Prod.snd _).mem_iff).1 hp
        rw [rank_fuse] at hp2
        rcases List.mem_map.1 hp2 with ⟨ay, hay, rfl⟩
        exact mem_intRange.1 hay

/-- C7 witness: the gap-free demo call with target 2002 returns 2001,
which indeed lies in `[2000, 2001]`. -/
theorem no_future_candidates_witness : (2001 : ℤ) ≤ 2001 ∧ (2001 : ℤ) < 2002 :=
  no_future_candidates oniFull pdoFull 2002 2001 1 5 [2001] (by decide)
    2001 (by decide)

/-- C8 counterexample: the year 2000 is absent from the PDO series and
lies inside the look-back window of candidate 2001, yet the call with
look-back 1 succeeds, because the code never looks up PDO values for
look-back window years. -/
theorem pdo_window_gap_no_error_cx :
    pdoDemo 2000 = none ∧
    (2000 : ℤ) ∈ intRange (2001 - 1) (2001 + 1) ∧
    (2001 : ℤ) ∈ candidate_pool 2000 1 2002 ∧
    get_analog oniDemo pdoDemo 2002 1 2000 1 5 = some [2001] := by
  decide

/-- C8 (amended): `get_analog` aborts with a propagated lookup failure (no
partial result) whenever the target's ONI progression fails, the target's
PDO entry is missing, or any candidate's ONI progression or PDO entry
fails -- where an ONI progression fails exactly when some year of its
look-back window is absent from the ONI series; years that lie only in
PDO look-back windows are never consulted. -/
theorem missing_year_aborts (oni pdo : ℤ → Option (List ℚ)) (year : ℤ)
    (look_back : ℕ) (start_year : ℤ) (raise_to years_to_return : ℕ)
    (hfail : oni_progression oni year look_back = none ∨ pdo year = none ∨
      ∃ c ∈ candidate_pool start_year look_back year,
        oni_progression oni c look_back = none ∨ pdo c = none) :
    get_analog oni pdo year look_back start_year raise_to years_to_return =
      none := by
  rcases hfail with h | h | ⟨c, hc, hf⟩
  · rw [get_analog, h]
  · cases ho : oni_progression oni year look_back with
    | none => rw [get_analog, ho]
    | some co => simp [get_analog, ho, pdo_progression, h]
  · cases ho : oni_progression oni year look_back with
    | none => rw [get_analog, ho]
    | some co =>
      cases hp : pdo_progression pdo year with
      | none => simp [get_analog, ho, hp]
      | some cp =>
        simp only [get_analog, ho, hp]
        rw [build_analogs_eq_none oni pdo look_back co cp raise_to
          (candidate_pool start_year look_back year) c hc hf]

/-- C8 witness: candidate 1999 is absent from the ONI series, so the
whole computation aborts. -/
theorem missing_year_aborts_witness :
    get_analog oniDemo pdoDemo 2002 0 1999 1 5 = none :=
  missing_year_aborts oniDemo pdoDemo 2002 0 1999 1 5
    (Or.inr (Or.inr ⟨1999, by decide, Or.inl (by decide)⟩))

end Snowfall
